import Mathlib

/-!
# Verification of the audiobook generation pipeline

A shallow embedding, in Lean 4, of the core of the audiobook plugin:
the Segmenter (`TTSOrchestrator.segmentChapters` and its helpers), the
Voice Matcher (`VoiceMatchingEngine`), the Generation Orchestrator
(`TTSOrchestrator.generateSegments` / `generateSingleSegment` /
`generateAudiobook`) and the Audio Assembler (`AudioAssembler`).

Modelling conventions:
* JavaScript strings are modelled as `List Char` (abbreviated `Str`);
  byte buffers as `List Nat`.
* JavaScript numbers are modelled as `ℚ` (all arithmetic in the code is
  exact on the values of interest); `Math.round` / `Math.ceil` become
  `Int.floor` / `Int.ceil` based functions.
* `async` functions become pure functions; external effects (HTTP calls
  to speech backends, the ffmpeg engine, the filesystem) become explicit
  parameters or explicit state threading, and thrown exceptions become
  `Except` errors.
* Provider dispatches and progress callbacks are recorded as explicit
  traces so that ordering claims can be stated.
-/

namespace Audiobook

deriving instance DecidableEq for Except

/-- JS strings, modelled as lists of characters. -/
abbrev Str := List Char

/-- Byte buffers (`Buffer` in the source), modelled as lists of bytes. -/
abbrev Bytes := List Nat

/-! ## Data model (from the repository's type definitions) -/

inductive Gender
  | male
  | female
  | neutral
deriving DecidableEq

/-- The five ordered age brackets `'0-12' | '13-19' | '20-35' | '36-55' | '56+'`. -/
inductive AgeRange
  | a0_12
  | a13_19
  | a20_35
  | a36_55
  | a56plus
deriving DecidableEq

inductive TTSProviderName
  | elevenlabs
  | xtts
  | playht
deriving DecidableEq

inductive SegmentType
  | narrative
  | dialogue
deriving DecidableEq

inductive EmotionType
  | joy
  | fear
  | anger
  | sadness
  | neutral
  | surprise
  | disgust
deriving DecidableEq

inductive EmotionalRange
  | low
  | medium
  | high
deriving DecidableEq

inductive AudioFormat
  | mp3
  | wav
  | m4b
deriving DecidableEq

structure Chapter where
  id : Str
  chapter_number : Nat
  title : Str
  content : Str
  word_count : Nat
deriving DecidableEq

structure AudioSegment where
  id : Str
  sequence_number : Nat
  segment_type : SegmentType
  character_name : Option Str
  text_content : Str
  emotion_detected : Option EmotionType
  emotion_intensity : Option ℚ
deriving DecidableEq

structure VoiceSettings where
  stability : ℚ
  similarity_boost : ℚ
  style : Option ℚ
  use_speaker_boost : Option Bool
deriving DecidableEq

structure VoiceProfile where
  gender : Gender
  age_range : AgeRange
  accent : Option Str
  tone : List Str
  emotional_range : EmotionalRange
deriving DecidableEq

structure Voice where
  id : Str
  name : Str
  provider : TTSProviderName
  gender : Gender
  age_range : AgeRange
  accent : Str
  descriptors : List Str
deriving DecidableEq

structure CharacterBible where
  character_name : Str
  age : ℚ
  gender : Gender
  personality : List Str
  background : Str
  speaking_style : Str
  voice_profile : VoiceProfile
deriving DecidableEq

structure VoiceAssignment where
  character_name : Str
  voice_id : Str
  voice_name : Str
  provider : TTSProviderName
  match_score : ℚ
  voice_settings : VoiceSettings
deriving DecidableEq

structure VoiceMatch where
  voice_id : Str
  voice_name : Str
  provider : TTSProviderName
  match_score : ℚ
  voice_settings : VoiceSettings
deriving DecidableEq

structure EmotionContext where
  etype : EmotionType
  intensity : ℚ
deriving DecidableEq

structure TTSGenerationParams where
  text : Str
  voice_id : Str
  settings : Option VoiceSettings
  emotion : Option EmotionContext
deriving DecidableEq

structure GeneratedAudio where
  audio_data : Bytes
  format : AudioFormat
  duration : ℚ
  provider : TTSProviderName
  cost : ℚ
deriving DecidableEq

structure NormalizedAudio where
  audio_data : Bytes
  format : AudioFormat
  duration : ℚ
  normalized_lufs : ℚ
deriving DecidableEq

structure ChapterMarker where
  chapter_number : Nat
  title : Str
  start_time : ℚ
  duration : ℚ
deriving DecidableEq

/-! ## String helpers shared by the embedded functions -/

/-- ASCII whitespace as matched by the source's `trim` / `\s` uses. -/
def isJsWs (c : Char) : Bool :=
  c == ' ' || c == '\t' || c == '\n' || c == '\r'

/-- JavaScript `String.prototype.trim`, restricted to ASCII whitespace. -/
def trimStr (s : Str) : Str :=
  ((s.dropWhile isJsWs).reverse.dropWhile isJsWs).reverse

/-- Is `needle` an initial segment of `hay`? -/
def strStarts : Str → Str → Bool
  | [], _ => true
  | _ :: _, [] => false
  | a :: as1, b :: bs => a == b && strStarts as1 bs

/-- Does `hay` contain `needle` as a contiguous substring (JS
`RegExp.test` with a literal alternation, or `String.includes`)? -/
def strContains (needle : Str) : Str → Bool
  | [] => strStarts needle []
  | c :: rest => strStarts needle (c :: rest) || strContains needle rest

/-- Lower-case a string (`toLowerCase`, ASCII fragment). -/
def toLowerStr (s : Str) : Str := s.map Char.toLower

/-- Splitting on runs of separator characters of length at least `k`,
the common shape of the source's `split(/\n\n+/)` (`k = 2`,
separator `'\n'`) and `split(/\s+/)` (`k = 1`, separator whitespace).
`pending` holds the reversed run of separator characters read but not
yet committed, `cur` the reversed current field. Empty fields are
produced exactly where JavaScript's `String.prototype.split` produces
them. -/
def splitRunsGo (sep : Char → Bool) (k : Nat) (pending cur : Str) : Str → List Str
  | [] =>
      if k ≤ pending.length then [cur.reverse, []]
      else [(pending ++ cur).reverse]
  | c :: rest =>
      if sep c then splitRunsGo sep k (c :: pending) cur rest
      else if k ≤ pending.length then
        cur.reverse :: splitRunsGo sep k [] [c] rest
      else splitRunsGo sep k [] (c :: (pending ++ cur)) rest

def splitRuns (sep : Char → Bool) (k : Nat) (s : Str) : List Str :=
  splitRunsGo sep k [] [] s

/-- `content.split(/\n\n+/)` from `segmentChapters`. -/
def splitParagraphs (s : Str) : List Str :=
  splitRuns (fun c => c == '\n') 2 s

/-- `text.split(/\s+/)` from the providers' `estimateDuration`. -/
def jsSplitWs (s : Str) : List Str :=
  splitRuns isJsWs 1 s

/-! ## Segmenter (`TTSOrchestrator.segmentChapters` and helpers) -/

/-- The fixed attribution-verb lexicon from `detectDialogue` /
`extractCharacterName`: `said|asked|replied|whispered|shouted`. -/
def dialogueVerbs : List Str :=
  ["said", "asked", "replied", "whispered", "shouted"].map String.toList

/-- `detectDialogue`: `/[""].*[""]/.test(text) && /(said|asked|replied|whispered|shouted)/.test(text)`.
The first regex (a character class containing the double quote twice)
matches exactly when two `'"'` characters occur with no line terminator
strictly between them, i.e. when some line of the text contains at
least two quote characters; `.` in a JS regex does not match `'\n'`. -/
def detectDialogue (text : Str) : Bool :=
  ((text.splitOn '\n').any fun line => 2 ≤ (line.filter (fun c => c == '"')).length)
    && dialogueVerbs.any (fun v => strContains v text)

/-- `\w` of the source regexes (ASCII fragment). -/
def isWordChar (c : Char) : Bool := c.isAlphanum || c == '_'

/-- `extractCharacterName`: the leftmost match of
`/(\w+)\s+(said|asked|replied|whispered|shouted)/i`, returning group 1.
Because word characters and whitespace are disjoint, the greedy `\w+`
and `\s+` can only match the maximal runs, so the leftmost match is the
first position at which (maximal word run)(nonempty whitespace run)(verb,
case-insensitively) parses; group 1 is that word run. -/
def extractCharacterName : Str → Option Str
  | [] => none
  | c :: rest =>
      if isWordChar c then
        let w := (c :: rest).takeWhile isWordChar
        let r1 := (c :: rest).dropWhile isWordChar
        let r2 := r1.dropWhile isJsWs
        if (match r1 with
            | [] => false
            | d :: _ => isJsWs d)
            && dialogueVerbs.any (fun v => toLowerStr (r2.take v.length) == v) then
          some w
        else extractCharacterName rest
      else extractCharacterName rest

/-- `chapter.id + '_seg_' + index`. -/
def mkSegmentId (chId : Str) (idx : Nat) : Str :=
  chId ++ "_seg_".toList ++ Nat.toDigits 10 idx

/-- The body of the `paragraphs.forEach((paragraph, index) => ...)` loop
of `segmentChapters`: paragraphs whose trim is empty are skipped but
still consume an index; `sequence_number = index + 1`. -/
def segmentsOfParagraphs (chId : Str) : Nat → List Str → List AudioSegment
  | _, [] => []
  | idx, p :: rest =>
      if (trimStr p).isEmpty then segmentsOfParagraphs chId (idx + 1) rest
      else
        { id := mkSegmentId chId idx
          sequence_number := idx + 1
          segment_type := if detectDialogue p then .dialogue else .narrative
          character_name := if detectDialogue p then extractCharacterName p else none
          text_content := trimStr p
          emotion_detected := none
          emotion_intensity := none } :: segmentsOfParagraphs chId (idx + 1) rest

/-- `TTSOrchestrator.segmentChapters`. -/
def segmentChapters (chapters : List Chapter) : List AudioSegment :=
  (chapters.map fun ch => segmentsOfParagraphs ch.id 0 (splitParagraphs ch.content)).flatten

/-! ## Voice Matcher (`VoiceMatchingEngine`) -/

inductive MatchError
  | noSuitableVoice (characterName : Str)
deriving DecidableEq

/-- `filterByGender`: keep voices whose gender equals the character's or
is neutral. -/
def filterByGender (voices : List Voice) (gender : Gender) : List Voice :=
  voices.filter fun v => v.gender == gender || v.gender == .neutral

/-- `getAgeRangeFromAge`. -/
def getAgeRangeFromAge (age : ℚ) : AgeRange :=
  if age ≤ 12 then .a0_12
  else if age ≤ 19 then .a13_19
  else if age ≤ 35 then .a20_35
  else if age ≤ 55 then .a36_55
  else .a56plus

/-- Index of a bracket in the fixed ordering `['0-12','13-19','20-35','36-55','56+']`. -/
def ageRangeIndex : AgeRange → Nat
  | .a0_12 => 0
  | .a13_19 => 1
  | .a20_35 => 2
  | .a36_55 => 3
  | .a56plus => 4

/-- `areAdjacentAgeRanges`: index distance exactly 1. -/
def areAdjacentAgeRanges (r1 r2 : AgeRange) : Bool :=
  ((ageRangeIndex r1 : ℤ) - ageRangeIndex r2).natAbs == 1

/-- `filterByAgeRange`: exact bracket or adjacent bracket. -/
def filterByAgeRange (voices : List Voice) (age : ℚ) : List Voice :=
  let targetRange := getAgeRangeFromAge age
  voices.filter fun v =>
    v.age_range == targetRange || areAdjacentAgeRanges v.age_range targetRange

/-- `filterByAccent`: case-insensitive accent match, or `neutral`, or the
`american` default fallback. -/
def filterByAccent (voices : List Voice) (accent : Str) : List Voice :=
  let normalizedAccent := toLowerStr accent
  voices.filter fun v =>
    let voiceAccent := toLowerStr v.accent
    voiceAccent == normalizedAccent || voiceAccent == "neutral".toList
      || voiceAccent == "american".toList

/-- The inner double loop of `calculatePersonalityMatch`: the number of
(tone, descriptor) pairs where either lower-cased string contains the
other as a substring. -/
def toneMatchCount (tone descriptors : List Str) : Nat :=
  ((tone.map fun t => (descriptors.map fun d =>
      if strContains t d || strContains d t then 1 else 0).sum).sum)

/-- `calculatePersonalityMatch`: neutral `0.5` when either tag list is
empty, otherwise `min 1 (matchCount / max |tone| |descriptors|)` over
the lower-cased tags. -/
def calculatePersonalityMatch (voiceDescriptors characterTone : List Str) : ℚ :=
  if characterTone.length = 0 ∨ voiceDescriptors.length = 0 then 1/2
  else
    let normalizedTone := characterTone.map toLowerStr
    let normalizedDescriptors := voiceDescriptors.map toLowerStr
    let matchCount := toneMatchCount normalizedTone normalizedDescriptors
    let maxMatches := max normalizedTone.length normalizedDescriptors.length
    min 1 ((matchCount : ℚ) / maxMatches)

/-- `optimizeSettings`. -/
def optimizeSettings (profile : VoiceProfile) : VoiceSettings :=
  let base : VoiceSettings :=
    { stability := 65/100, similarity_boost := 75/100,
      style := some (1/2), use_speaker_boost := some true }
  let afterRange : VoiceSettings :=
    match profile.emotional_range with
    | .low => { base with stability := 8/10, style := some (3/10) }
    | .medium => { base with stability := 65/100, style := some (1/2) }
    | .high => { base with stability := 1/2, style := some (8/10) }
  let calmWords : List Str := ["calm", "serene", "gentle"].map String.toList
  let energeticWords : List Str := ["energetic", "dynamic", "lively"].map String.toList
  let afterCalm : VoiceSettings :=
    if profile.tone.any (fun t => calmWords.contains (toLowerStr t)) then
      { afterRange with stability := min (85/100) (afterRange.stability + 1/10) }
    else afterRange
  if profile.tone.any (fun t => energeticWords.contains (toLowerStr t)) then
    { afterCalm with
      stability := max (4/10) (afterCalm.stability - 15/100)
      style := some (8/10) }
  else afterCalm

/-- The candidate list after the three filter stages of
`matchCharacterToVoice` (gender, age bracket, accent).  The accent
filter runs only when `voice_profile.accent` is set and non-empty
(JavaScript truthiness: the empty string is falsy). -/
def postFilterCandidates (cb : CharacterBible) (pool : List Voice) : List Voice :=
  let c1 := filterByGender pool cb.gender
  let c2 := filterByAgeRange c1 cb.age
  match cb.voice_profile.accent with
  | some acc => if acc.isEmpty then c2 else filterByAccent c2 acc
  | none => c2

/-- The source sorts the scored candidates with
`scored.sort((a, b) => b.score - a.score)` — a stable sort (guaranteed
by the JS spec) descending by score — and takes `scored[0]`.  That
composite is the first element attaining the maximal score, which this
fold computes directly (a strictly greater score replaces the current
best, a tie keeps the earlier element). -/
def selGo (x : Voice × ℚ) (xs : List (Voice × ℚ)) : Voice × ℚ :=
  xs.foldl (fun b y => if b.2 < y.2 then y else b) x

def selectFirstMax : List (Voice × ℚ) → Option (Voice × ℚ)
  | [] => none
  | x :: xs => some (selGo x xs)

/-- `VoiceMatchingEngine.matchCharacterToVoice`. -/
def matchCharacterToVoice (cb : CharacterBible) (pool : List Voice) :
    Except MatchError VoiceMatch :=
  let candidates := postFilterCandidates cb pool
  let scored := candidates.map fun v =>
    (v, calculatePersonalityMatch v.descriptors cb.voice_profile.tone)
  match selectFirstMax scored with
  | none => .error (.noSuitableVoice cb.character_name)
  | some best =>
      .ok { voice_id := best.1.id, voice_name := best.1.name,
            provider := best.1.provider, match_score := best.2,
            voice_settings := optimizeSettings cb.voice_profile }

/-! ## Synthesis providers (`ElevenLabsProvider`, `PlayHTProvider`)

The HTTP request (including emotion modulation of the request body and
retry policy) is abstracted into a `backend` parameter: `some bytes`
models a successful response with those audio bytes, `none` models any
network/4xx/5xx failure.  The fragment fields built on success
(`format`, `duration`, `provider`, `cost`) are translated from the
providers' `generateSpeech` bodies. -/

inductive GenError
  | providerFailed (p : TTSProviderName)
  | noVoiceAssignment (segmentId : Str)
  | segmentExhausted
deriving DecidableEq

/-- One external speech backend: the network call behind a provider's
`generateSpeech`. -/
abbrev Backend := TTSGenerationParams → Option Bytes

/-- `estimateDuration` (identical in both providers):
`Math.ceil(text.split(/\s+/).length / 150 * 60)` seconds. -/
def estimateDuration (text : Str) : ℚ :=
  (⌈((jsSplitWs text).length : ℚ) / 150 * 60⌉ : ℤ)

/-- `calculateCost` (identical in both providers):
`(characterCount / 1000) * costPer1K`. -/
def calculateCost (characterCount : Nat) (costPer1K : ℚ) : ℚ :=
  ((characterCount : ℚ) / 1000) * costPer1K

/-- A provider's `generateSpeech`: on backend success, a fragment tagged
with that provider's own name; on backend failure, a wrapped provider
error. -/
def providerGenerateSpeech (pname : TTSProviderName) (backend : Backend)
    (costPer1K : ℚ) (params : TTSGenerationParams) : Except GenError GeneratedAudio :=
  match backend params with
  | some bytes =>
      .ok { audio_data := bytes
            format := .mp3
            duration := estimateDuration params.text
            provider := pname
            cost := calculateCost params.text.length costPer1K }
  | none => .error (.providerFailed pname)

/-! ## Generation Orchestrator (`TTSOrchestrator`) -/

/-- `findVoiceAssignment`: no character name means the narrator voice
(exact-match lookup of the sentinel name `narrator`); a named character
is looked up case-insensitively. -/
def findVoiceAssignment (characterName : Option Str)
    (assignments : List VoiceAssignment) : Option VoiceAssignment :=
  match characterName with
  | none => assignments.find? fun a => a.character_name == "narrator".toList
  | some nm =>
      assignments.find? fun a => toLowerStr a.character_name == toLowerStr nm

/-- The `TTSGenerationParams` built by `generateSingleSegment`.  The
emotion intensity uses JavaScript `segment.emotion_intensity || 0.5`:
both `null` and `0` fall back to `0.5`. -/
def mkGenerationParams (segment : AudioSegment) (assignment : VoiceAssignment) :
    TTSGenerationParams :=
  { text := segment.text_content
    voice_id := assignment.voice_id
    settings := some assignment.voice_settings
    emotion :=
      match segment.emotion_detected with
      | some e =>
          let rawIntensity := segment.emotion_intensity.getD 0
          some { etype := e, intensity := if rawIntensity = 0 then 1/2 else rawIntensity }
      | none => none }

/-- The two backends the orchestrator is wired to: ElevenLabs (primary)
and PlayHT (fallback), with their per-1K-character prices. -/
structure OrchestratorEnv where
  elevenlabsBackend : Backend
  playhtBackend : Backend
  elevenlabsCostPer1K : ℚ
  playhtCostPer1K : ℚ

/-- `TTSOrchestrator.generateSingleSegment`, together with the trace of
provider dispatches it performs (in dispatch order).  The primary
provider is always ElevenLabs and the only fallback is PlayHT,
independently of `assignment.provider`; if the assignment lookup fails
the error is thrown before any provider call. -/
def generateSingleSegment (env : OrchestratorEnv) (segment : AudioSegment)
    (assignments : List VoiceAssignment) :
    Except GenError GeneratedAudio × List TTSProviderName :=
  match findVoiceAssignment segment.character_name assignments with
  | none => (.error (.noVoiceAssignment segment.id), [])
  | some assignment =>
      let params := mkGenerationParams segment assignment
      match providerGenerateSpeech .elevenlabs env.elevenlabsBackend
          env.elevenlabsCostPer1K params with
      | .ok audio => (.ok audio, [.elevenlabs])
      | .error _ =>
          match providerGenerateSpeech .playht env.playhtBackend
              env.playhtCostPer1K params with
          | .ok audio => (.ok audio, [.elevenlabs, .playht])
          | .error _ => (.error .segmentExhausted, [.elevenlabs, .playht])

/-- The batch decomposition performed by the `for (let i = 0; i < n; i += batchSize)`
loop of `generateSegments`: successive slices of length `batchSize`.
(With `batchSize = 0` the source loop would never terminate; the claims
about batching all assume a positive batch size, and this function
returns no batches in that degenerate case.) -/
def chunks : Nat → List α → List (List α)
  | _, [] => []
  | 0, _ :: _ => []
  | b + 1, x :: xs => (x :: xs).take (b + 1) :: chunks (b + 1) ((x :: xs).drop (b + 1))
termination_by _ l => l.length
decreasing_by
  simp only [List.length_drop, List.length_cons]
  omega

/-- `Math.round` (JavaScript, for the non-negative values that occur
here): `⌊x + 1/2⌋`. -/
def jsRound (q : ℚ) : ℤ := ⌊q + 1/2⌋

/-- The percent value emitted at a batch boundary by `generateAudiobook`:
`Math.round(10 + (current / total) * 80)`. -/
def batchPercent (current total : Nat) : ℤ :=
  jsRound (10 + ((current : ℚ) / total) * 80)

/-- The observable outcome of `generateSegments`: the returned fragments
(or the first error), the unit dispatches performed (tagged with their
zero-based batch index, in dispatch order — within one batch all units
are dispatched concurrently before the batch is awaited), and the
percent values passed to the progress callback at batch boundaries. -/
structure BatchRun where
  result : Except GenError (List GeneratedAudio)
  calls : List (Nat × Str)
  progress : List ℤ

/-- `Promise.all` over one batch: the results in batch order, or the
first error when any call fails (all calls are dispatched either way —
the dispatch trace is recorded by `runBatches`). -/
def exceptMapM (gen : AudioSegment → Except GenError GeneratedAudio) :
    List AudioSegment → Except GenError (List GeneratedAudio)
  | [] => .ok []
  | s :: rest =>
      match gen s with
      | .error e => .error e
      | .ok f =>
          match exceptMapM gen rest with
          | .error e => .error e
          | .ok fs => .ok (f :: fs)

/-- The batch loop of `generateSegments` over the already-sliced
batches.  `done` counts units completed in earlier batches; the progress
callback fires only after a batch's `Promise.all` resolves, so a failing
batch dispatches all of its units but emits no progress event and stops
the run. -/
def runBatches (gen : AudioSegment → Except GenError GeneratedAudio) (total : Nat) :
    Nat → Nat → List (List AudioSegment) → BatchRun
  | _, _, [] => ⟨.ok [], [], []⟩
  | bIdx, done, batch :: rest =>
      let calls := batch.map fun s => (bIdx, s.id)
      match exceptMapM gen batch with
      | .error e => ⟨.error e, calls, []⟩
      | .ok fragments =>
          let r := runBatches gen total (bIdx + 1) (done + batch.length) rest
          ⟨r.result.map (fragments ++ ·), calls ++ r.calls,
            batchPercent (done + batch.length) total :: r.progress⟩

/-- `TTSOrchestrator.generateSegments`. -/
def generateSegments (env : OrchestratorEnv) (segments : List AudioSegment)
    (assignments : List VoiceAssignment) (batchSize : Nat) : BatchRun :=
  runBatches (fun s => (generateSingleSegment env s assignments).1)
    segments.length 0 0 (chunks batchSize segments)

inductive ProgressStage
  | analyzing_chapters
  | generating_audio
  | finalizing
  | complete
  | error
deriving DecidableEq

structure ProgressUpdate where
  stage : ProgressStage
  percent_complete : ℤ
deriving DecidableEq

/-- The sequence of progress events emitted by `generateAudiobook`:
`analyzing_chapters` at 5, `generating_audio` at 10, one
`generating_audio` event per completed batch, then on success
`finalizing` at 95 and `complete` at 100, or on failure a single
`error` event at 0. -/
def generateAudiobookEvents (env : OrchestratorEnv) (chapters : List Chapter)
    (assignments : List VoiceAssignment) (batchSize : Nat) : List ProgressUpdate :=
  let segments := segmentChapters chapters
  let run := generateSegments env segments assignments batchSize
  ⟨.analyzing_chapters, 5⟩ :: ⟨.generating_audio, 10⟩ ::
    (run.progress.map fun p => ⟨.generating_audio, p⟩) ++
      match run.result with
      | .ok _ => [⟨.finalizing, 95⟩, ⟨.complete, 100⟩]
      | .error _ => [⟨.error, 0⟩]

/-! ## Audio Assembler (`AudioAssembler`) -/

inductive AsmError
  | engineError
deriving DecidableEq

/-- `Chapter ${n}`. -/
def chapterTitle (n : Nat) : Str :=
  "Chapter ".toList ++ Nat.toDigits 10 n

/-- The `normalized.forEach((segment, index) => ...)` loop of
`addChapterMarkers`: `t` is the running `currentTime`, `idx` the
zero-based index. -/
def chapterMarkersGo (t : ℚ) (idx : Nat) : List NormalizedAudio → List ChapterMarker
  | [] => []
  | n :: rest =>
      { chapter_number := idx + 1
        title := chapterTitle (idx + 1)
        start_time := t
        duration := n.duration } :: chapterMarkersGo (t + n.duration) (idx + 1) rest

/-- `AudioAssembler.addChapterMarkers`: concatenate the fragments' audio
in list order and emit one marker per fragment. -/
def addChapterMarkers (normalized : List NormalizedAudio) :
    Bytes × List ChapterMarker :=
  ((normalized.map (·.audio_data)).flatten, chapterMarkersGo 0 0 normalized)

/-- `AudioAssembler.calculateTotalDuration`:
`normalized.reduce((sum, audio) => sum + audio.duration, 0)`. -/
def calculateTotalDuration (normalized : List NormalizedAudio) : ℚ :=
  normalized.foldl (fun sum audio => sum + audio.duration) 0

/-- `AudioAssembler.calculateCost`:
`segments.reduce((sum, segment) => sum + segment.cost, 0)`. -/
def calculateAssemblyCost (segments : List GeneratedAudio) : ℚ :=
  segments.foldl (fun sum segment => sum + segment.cost) 0

/-- The external audio engine (ffmpeg) behind `normalizeAudio` /
`generateM4B`: `some bytes` models a run that succeeds and produces
those output bytes, `none` a run that fails (the `on('error', reject)`
path). -/
abbrev AudioEngine := Bytes → Option Bytes

/-- The filesystem visible to the assembler, as the list of temp files
currently existing (name, contents). -/
abbrev FsState := List (Str × Bytes)

/-- One iteration of the `for (const segment of segments)` loop of
`AudioAssembler.normalizeAudio`, threading the temp-file state
explicitly: write the input temp file, run the engine, and — only on
the success path — read the output and `unlink` both temp files.  On
engine failure the `catch` block rethrows without any `unlink`, so the
written input file (and whatever the engine left behind) stays on
disk. -/
def normalizeOneSegment (engine : AudioEngine) (lufs : ℚ) (tin tout : Str)
    (segment : GeneratedAudio) (fs : FsState) :
    Except AsmError NormalizedAudio × FsState :=
  let fs1 := fs ++ [(tin, segment.audio_data)]
  match engine segment.audio_data with
  | some outBytes =>
      let fs2 := fs1 ++ [(tout, outBytes)]
      (.ok { audio_data := outBytes
             format := .mp3
             duration := segment.duration
             normalized_lufs := lufs },
        (fs2.filter fun f => decide (f.1 ≠ tin) && decide (f.1 ≠ tout)))
  | none => (.error .engineError, fs1)

/-- `AudioAssembler.normalizeAudio` over a list of fragments: the loop
aborts the whole assembly on the first engine failure.  Temp file names
are supplied per fragment (the source derives them from `Date.now()`). -/
def normalizeAudio (engine : AudioEngine) (lufs : ℚ) :
    List (Str × Str) → List GeneratedAudio → FsState →
      Except AsmError (List NormalizedAudio) × FsState
  | _, [], fs => (.ok [], fs)
  | [], _ :: _, fs => (.error .engineError, fs)
  | (tin, tout) :: names, segment :: rest, fs =>
      match normalizeOneSegment engine lufs tin tout segment fs with
      | (.error e, fs1) => (.error e, fs1)
      | (.ok n, fs1) =>
          match normalizeAudio engine lufs names rest fs1 with
          | (.error e, fs2) => (.error e, fs2)
          | (.ok ns, fs2) => (.ok (n :: ns), fs2)

/-- `AudioAssembler.generateM4B`: write the concatenated audio to a temp
input file, run the engine (`ffmpeg ... outputFormat('ipod')`), and on
success read the result and `unlink` both temp files; on engine failure
the `catch` rethrows without deleting anything. -/
def generateM4B (engine : AudioEngine) (tin tout : Str) (audio : Bytes)
    (fs : FsState) : Except AsmError Bytes × FsState :=
  let fs1 := fs ++ [(tin, audio)]
  match engine audio with
  | some m4bData =>
      let fs2 := fs1 ++ [(tout, m4bData)]
      (.ok m4bData, fs2.filter fun f => decide (f.1 ≠ tin) && decide (f.1 ≠ tout))
  | none => (.error .engineError, fs1)

/-! ## Helper lemmas -/

theorem strStarts_iff (n h : Str) : strStarts n h = true ↔ n <+: h := by
  induction n generalizing h with
  | nil => simp [strStarts]
  | cons a as ih =>
      cases h with
      | nil => simp [strStarts]
      | cons b bs => simp [strStarts, ih, List.cons_prefix_cons]

theorem strContains_iff (n h : Str) : strContains n h = true ↔ n <:+: h := by
  induction h with
  | nil =>
      simp [strContains, strStarts_iff]
  | cons c t ih =>
      rw [List.infix_cons_iff]
      simp [strContains, strStarts_iff, ih]

theorem foldl_add_eq {α : Type} (f : α → ℚ) (l : List α) (c : ℚ) :
    l.foldl (fun s a => s + f a) c = c + (l.map f).sum := by
  induction l generalizing c with
  | nil => simp
  | cons a t ih => simp [ih, add_assoc]

/-! ## C6 : chapter markers and totals -/

/-- The spec's description of the marker list: the `i`-th marker (zero
based) has start offset equal to the sum of the durations of the
preceding fragments and duration equal to the fragment's own. -/
def specChapterMarkers (ns : List NormalizedAudio) : List ChapterMarker :=
  ns.enum.map fun p =>
    { chapter_number := p.1 + 1
      title := chapterTitle (p.1 + 1)
      start_time := ((ns.take p.1).map (·.duration)).sum
      duration := p.2.duration }

theorem chapterMarkersGo_enumFrom (ns : List NormalizedAudio) : ∀ j t,
    chapterMarkersGo t j ns = (List.enumFrom j ns).map fun p =>
      { chapter_number := p.1 + 1
        title := chapterTitle (p.1 + 1)
        start_time := t + ((ns.take (p.1 - j)).map (·.duration)).sum
        duration := p.2.duration } := by
  induction ns with
  | nil => intro j t; simp [chapterMarkersGo]
  | cons n rest ih =>
      intro j t
      simp only [chapterMarkersGo, ih (j + 1) (t + n.duration), List.enumFrom,
        List.map_cons]
      congr 1
      · simp
      · refine List.map_congr_left fun p hp => ?_
        have hj : j + 1 ≤ p.1 := List.le_fst_of_mem_enumFrom hp
        have htake : p.1 - j = (p.1 - (j + 1)) + 1 := by omega
        simp only [htake, List.take_succ_cons, List.map_cons, List.sum_cons,
          ChapterMarker.mk.injEq]
        exact ⟨trivial, trivial, by ring, trivial⟩

theorem addChapterMarkers_eq_spec (ns : List NormalizedAudio) :
    (addChapterMarkers ns).2 = specChapterMarkers ns := by
  have h := chapterMarkersGo_enumFrom ns 0 0
  simp only [addChapterMarkers, specChapterMarkers, List.enum]
  rw [h]
  exact List.map_congr_left fun p _ => by simp

/-- Three normalized fragments with durations `[10, 20, 15]` and
sequence numbers `[1, 2, 3]` (the spec's worked example). -/
def exampleNormalized : List NormalizedAudio :=
  [{ audio_data := [0], format := .mp3, duration := 10, normalized_lufs := -16 },
   { audio_data := [1], format := .mp3, duration := 20, normalized_lufs := -16 },
   { audio_data := [2], format := .mp3, duration := 15, normalized_lufs := -16 }]

/-- C6: for every list of normalized fragments the Assembler produces
exactly one chapter marker per fragment, with start offset the sum of
the preceding durations and duration the fragment's own; the reported
total duration is the sum of all fragment durations and the total cost
the sum of all fragment costs; on durations `[10, 20, 15]` the marker
start offsets are `[0, 10, 30]` and the total duration is `45`. -/
theorem assembler_markers_and_totals :
    (∀ ns : List NormalizedAudio,
        (addChapterMarkers ns).2 = specChapterMarkers ns
        ∧ (addChapterMarkers ns).2.length = ns.length
        ∧ calculateTotalDuration ns = (ns.map (·.duration)).sum)
    ∧ (∀ segs : List GeneratedAudio,
        calculateAssemblyCost segs = (segs.map (·.cost)).sum)
    ∧ (addChapterMarkers exampleNormalized).2.map (·.start_time) = [0, 10, 30]
    ∧ (addChapterMarkers exampleNormalized).2.map (·.duration) = [10, 20, 15]
    ∧ calculateTotalDuration exampleNormalized = 45 := by
  refine ⟨fun ns => ⟨addChapterMarkers_eq_spec ns, ?_, ?_⟩,
      fun segs => ?_, ?_, ?_, ?_⟩
  · rw [addChapterMarkers_eq_spec ns]
    simp [specChapterMarkers]
  · rw [show calculateTotalDuration ns
        = ns.foldl (fun s a => s + a.duration) 0 from rfl, foldl_add_eq]
    simp
  · rw [show calculateAssemblyCost segs
        = segs.foldl (fun s a => s + a.cost) 0 from rfl, foldl_add_eq]
    simp
  · simp [exampleNormalized, addChapterMarkers, chapterMarkersGo]
    norm_num
  · simp [exampleNormalized, addChapterMarkers, chapterMarkersGo]
  · simp [exampleNormalized, calculateTotalDuration]
    norm_num

/-! ## C1 : sequence numbers and end-to-end ordering -/

/-- A two-chapter book: the second chapter restarts paragraph numbering. -/
def chaptersRestart : List Chapter :=
  [{ id := "c1".toList, chapter_number := 1, title := "One".toList,
     content := "Alpha\n\nBeta".toList, word_count := 2 },
   { id := "c2".toList, chapter_number := 2, title := "Two".toList,
     content := "Gamma".toList, word_count := 1 }]

/-- A chapter whose middle paragraph candidate is whitespace-only, which
is skipped but still consumes an index. -/
def chaptersGap : List Chapter :=
  [{ id := "c1".toList, chapter_number := 1, title := "One".toList,
     content := "Alpha\n\n \n\nBeta".toList, word_count := 2 }]

/-- C1, counterexample: the sequence numbers the Segmenter assigns are
not strictly increasing across the whole book — numbering restarts at 1
in every chapter (`[1, 2, 1]` on a two-chapter book) — and they are not
dense within a chapter either: a whitespace-only paragraph candidate is
skipped but still consumes an index (`[1, 3]`). -/
theorem sequence_numbers_not_book_monotonic :
    (segmentChapters chaptersRestart).map (·.sequence_number) = [1, 2, 1]
    ∧ ¬ List.Chain' (· < ·) ((segmentChapters chaptersRestart).map (·.sequence_number))
    ∧ (segmentChapters chaptersGap).map (·.sequence_number) = [1, 3] := by
  refine ⟨by decide, ?_, by decide⟩
  intro h
  rw [show (segmentChapters chaptersRestart).map (·.sequence_number) = [1, 2, 1]
    from by decide] at h
  rw [List.chain'_cons, List.chain'_cons] at h
  omega

theorem seq_gt_of_mem (chId : Str) : ∀ (n : Nat) (ps : List Str) s,
    s ∈ segmentsOfParagraphs chId n ps → n < s.sequence_number := by
  intro n ps
  induction ps generalizing n with
  | nil => intro s hs; simp [segmentsOfParagraphs] at hs
  | cons p rest ih =>
      intro s hs
      by_cases hp : (trimStr p).isEmpty
      · rw [segmentsOfParagraphs, if_pos hp] at hs
        exact Nat.lt_of_succ_lt (ih (n + 1) s hs)
      · rw [segmentsOfParagraphs, if_neg hp] at hs
        rcases List.mem_cons.mp hs with hs | hs
        · subst hs; exact Nat.lt_succ_self n
        · exact Nat.lt_of_succ_lt (ih (n + 1) s hs)

theorem seq_pairwise (chId : Str) : ∀ (n : Nat) (ps : List Str),
    ((segmentsOfParagraphs chId n ps).map (·.sequence_number)).Pairwise (· < ·) := by
  intro n ps
  induction ps generalizing n with
  | nil => simp [segmentsOfParagraphs]
  | cons p rest ih =>
      by_cases hp : (trimStr p).isEmpty
      · rw [segmentsOfParagraphs, if_pos hp]; exact ih (n + 1)
      · rw [segmentsOfParagraphs, if_neg hp]
        rw [List.map_cons, List.pairwise_cons]
        refine ⟨?_, ih (n + 1)⟩
        intro y hy
        rcases List.mem_map.mp hy with ⟨s, hs, rfl⟩
        exact seq_gt_of_mem chId (n + 1) rest s hs

theorem seq_dense (chId : Str) : ∀ (n : Nat) (ps : List Str),
    (∀ p ∈ ps, (trimStr p).isEmpty = false) →
      (segmentsOfParagraphs chId n ps).map (·.sequence_number)
        = List.range' (n + 1) ps.length := by
  intro n ps
  induction ps generalizing n with
  | nil => intro _; simp [segmentsOfParagraphs]
  | cons p rest ih =>
      intro hall
      have hp : (trimStr p).isEmpty = false := hall p (List.mem_cons_self p rest)
      rw [segmentsOfParagraphs, if_neg (by simp [hp])]
      rw [List.map_cons, List.length_cons, List.range'_succ]
      exact congrArg _ (ih (n + 1) fun q hq => hall q (List.mem_cons_of_mem p hq))

/-- C1, amended: sequence numbers are assigned per chapter as paragraph
index + 1 — strictly increasing within each chapter, and dense
(`n+1, …, n+k`) exactly when no whitespace-only paragraph candidate is
skipped — but they restart at 1 in every chapter, so they are not
monotonic across the whole book; and the Assembler emits audio and
markers in the order of its input fragment list (it never reads
sequence numbers), which preserves the Orchestrator's output order. -/
theorem sequence_numbers_per_chapter :
    (∀ (chId : Str) (n : Nat) (ps : List Str),
        List.Chain' (· < ·) ((segmentsOfParagraphs chId n ps).map (·.sequence_number)))
    ∧ (∀ (chId : Str) (n : Nat) (ps : List Str),
        (∀ p ∈ ps, (trimStr p).isEmpty = false) →
          (segmentsOfParagraphs chId n ps).map (·.sequence_number)
            = List.range' (n + 1) ps.length)
    ∧ (∀ ns : List NormalizedAudio,
        (addChapterMarkers ns).1 = (ns.map (·.audio_data)).flatten
        ∧ (addChapterMarkers ns).2.map (·.chapter_number) = List.range' 1 ns.length) := by
  refine ⟨fun chId n ps => (seq_pairwise chId n ps).chain',
    seq_dense, fun ns => ⟨rfl, ?_⟩⟩
  rw [addChapterMarkers_eq_spec ns]
  simp only [specChapterMarkers, List.map_map]
  rw [show (List.range' 1 ns.length) = (List.range ns.length).map (· + 1) from ?_]
  · rw [← List.enum_map_fst ns, List.map_map]
    rfl
  · rw [List.range'_eq_map_range]
    exact List.map_congr_left fun i _ => Nat.add_comm 1 i

/-- Witness for the amended C1 at a concrete input: a single chapter
with one non-blank paragraph gets the dense numbering `[1]`. -/
theorem sequence_numbers_per_chapter_witness :
    (segmentsOfParagraphs "c".toList 0 ["ab".toList]).map (·.sequence_number)
      = List.range' 1 1 :=
  sequence_numbers_per_chapter.2.1 "c".toList 0 ["ab".toList] (by decide)

/-! ## C7 : dialogue classification -/

/-- The spec-side reading of "contains a quoted span": two double-quote
characters occur on one line of the paragraph (the source regex
`/[""].*[""]/` — a character class holding the double quote twice — and
`.` does not match a line terminator). -/
def hasQuotedSpan (text : Str) : Prop :=
  ∃ line ∈ text.splitOn '\n', 2 ≤ (line.filter (fun c => c == '"')).length

/-- The spec-side reading of "contains at least one attribution verb
from the fixed lexicon": some verb of the lexicon occurs as a
contiguous substring. -/
def hasAttributionVerb (text : Str) : Prop :=
  ∃ v ∈ dialogueVerbs, v <:+: text

/-- A one-paragraph chapter with a quoted phrase and the word `said`. -/
def chaptersSaid : List Chapter :=
  [{ id := "c1".toList, chapter_number := 1, title := "One".toList,
     content := "\"Hello there,\" she said.".toList, word_count := 4 }]

/-- The same paragraph with the attribution verb removed. -/
def chaptersNoVerb : List Chapter :=
  [{ id := "c1".toList, chapter_number := 1, title := "One".toList,
     content := "\"Hello there,\" she remarked.".toList, word_count := 4 }]

/-- C7: the Segmenter classifies a paragraph as dialogue exactly when it
contains a quoted span and an attribution verb from the fixed lexicon
(`said`, `asked`, `replied`, `whispered`, `shouted`); every produced
unit's classification comes from its originating paragraph this way.
Concretely, a paragraph with a quoted phrase and `said` is classified
`dialogue` and the same paragraph without an attribution verb is
classified `narrative`. -/
theorem dialogue_classification :
    (∀ text : Str,
        detectDialogue text = true ↔ hasQuotedSpan text ∧ hasAttributionVerb text)
    ∧ (∀ (chId : Str) (n : Nat) (ps : List Str) s,
        s ∈ segmentsOfParagraphs chId n ps →
          ∃ p ∈ ps, s.text_content = trimStr p
            ∧ (s.segment_type = .dialogue ↔ detectDialogue p = true))
    ∧ (segmentChapters chaptersSaid).map (·.segment_type) = [.dialogue]
    ∧ (segmentChapters chaptersNoVerb).map (·.segment_type) = [.narrative] := by
  refine ⟨fun text => ?_, fun chId n ps => ?_, by decide, by decide⟩
  · simp only [detectDialogue, Bool.and_eq_true, List.any_eq_true,
      decide_eq_true_eq, hasQuotedSpan, hasAttributionVerb, strContains_iff]
  · induction ps generalizing n with
    | nil => intro s hs; simp [segmentsOfParagraphs] at hs
    | cons p rest ih =>
        intro s hs
        by_cases hp : (trimStr p).isEmpty
        · rw [segmentsOfParagraphs, if_pos hp] at hs
          rcases ih (n + 1) s hs with ⟨q, hq, h1, h2⟩
          exact ⟨q, List.mem_cons_of_mem p hq, h1, h2⟩
        · rw [segmentsOfParagraphs, if_neg hp] at hs
          rcases List.mem_cons.mp hs with hs | hs
          · subst hs
            refine ⟨p, List.mem_cons_self p rest, rfl, ?_⟩
            by_cases hd : detectDialogue p
            · simp [hd]
            · simp [hd]
          · rcases ih (n + 1) s hs with ⟨q, hq, h1, h2⟩
            exact ⟨q, List.mem_cons_of_mem p hq, h1, h2⟩

/-- Witness for C7's per-unit conjunct at a concrete input: the single
unit produced from the paragraph `hi` points back to that paragraph. -/
theorem dialogue_classification_witness :
    ∃ p ∈ ["hi".toList],
      ({ id := mkSegmentId "c".toList 0, sequence_number := 1,
         segment_type := .narrative, character_name := none,
         text_content := trimStr "hi".toList, emotion_detected := none,
         emotion_intensity := none } : AudioSegment).text_content = trimStr p
      ∧ (({ id := mkSegmentId "c".toList 0, sequence_number := 1,
            segment_type := .narrative, character_name := none,
            text_content := trimStr "hi".toList, emotion_detected := none,
            emotion_intensity := none } : AudioSegment).segment_type = .dialogue
          ↔ detectDialogue p = true) :=
  dialogue_classification.2.1 "c".toList 0 ["hi".toList]
    { id := mkSegmentId "c".toList 0, sequence_number := 1,
      segment_type := .narrative, character_name := none,
      text_content := trimStr "hi".toList, emotion_detected := none,
      emotion_intensity := none } (by decide)

/-! ## C4 : empty filter stages fail the match -/

/-- A character of gender `female` and age `30`. -/
def femaleThirty : CharacterBible :=
  { character_name := "Mary".toList, age := 30, gender := .female,
    personality := [], background := [], speaking_style := [],
    voice_profile := { gender := .female, age_range := .a20_35, accent := none,
                       tone := [], emotional_range := .medium } }

/-- A pool containing only `male`, non-neutral voices. -/
def malePool : List Voice :=
  [{ id := "v1".toList, name := "Bob".toList, provider := .elevenlabs,
     gender := .male, age_range := .a20_35, accent := "american".toList,
     descriptors := [] },
   { id := "v2".toList, name := "Jim".toList, provider := .playht,
     gender := .male, age_range := .a36_55, accent := "british".toList,
     descriptors := ["warm".toList] }]

theorem postFilterCandidates_eq_nil (cb : CharacterBible) (pool : List Voice)
    (h : filterByGender pool cb.gender = []
      ∨ filterByAgeRange (filterByGender pool cb.gender) cb.age = []
      ∨ postFilterCandidates cb pool = []) :
    postFilterCandidates cb pool = [] := by
  rcases h with h | h | h
  · have h2 : filterByAgeRange (filterByGender pool cb.gender) cb.age = [] := by
      rw [h]; simp [filterByAgeRange]
    simp only [postFilterCandidates, h2]
    cases cb.voice_profile.accent with
    | none => rfl
    | some acc => by_cases ha : acc.isEmpty <;> simp [ha, filterByAccent]
  · simp only [postFilterCandidates, h]
    cases cb.voice_profile.accent with
    | none => rfl
    | some acc => by_cases ha : acc.isEmpty <;> simp [ha, filterByAccent]
  · exact h

/-- C4: if any filter stage (gender, age bracket, or accent) empties the
candidate set, matching fails with the no-suitable-voice error rather
than defaulting; concretely, a `female` character of age 30 against a
pool of only `male` non-neutral voices fails that way. -/
theorem voice_matcher_empty_filter_fails :
    (∀ (cb : CharacterBible) (pool : List Voice),
        (filterByGender pool cb.gender = []
          ∨ filterByAgeRange (filterByGender pool cb.gender) cb.age = []
          ∨ postFilterCandidates cb pool = []) →
          matchCharacterToVoice cb pool = .error (.noSuitableVoice cb.character_name))
    ∧ matchCharacterToVoice femaleThirty malePool
        = .error (.noSuitableVoice "Mary".toList) := by
  constructor
  · intro cb pool h
    have hc := postFilterCandidates_eq_nil cb pool h
    unfold matchCharacterToVoice
    rw [hc]
    rfl
  · decide

/-- Witness for C4 at a concrete input: the gender filter empties the
pool for `femaleThirty`, so matching fails. -/
theorem voice_matcher_empty_filter_fails_witness :
    matchCharacterToVoice femaleThirty malePool
      = .error (.noSuitableVoice femaleThirty.character_name) :=
  voice_matcher_empty_filter_fails.1 femaleThirty malePool (Or.inl (by decide))

/-! ## C3 : scoring and selection -/

/-- The spec-side match count: the number of (tone tag, descriptor tag)
pairs where either string contains the other as a substring. -/
def specMatchCount (tone descriptors : List Str) : Nat :=
  (tone.map fun t => descriptors.countP fun d => decide (t <:+: d ∨ d <:+: t)).sum

theorem sum_ite_one {α : Type} (p : α → Bool) (l : List α) :
    (l.map fun a => if p a then (1 : Nat) else 0).sum = l.countP p := by
  induction l with
  | nil => simp
  | cons a t ih =>
      by_cases h : p a
      · simp [List.countP_cons, h, ih]
        omega
      · simp [List.countP_cons, h, ih]

theorem toneMatchCount_eq_spec (tone descriptors : List Str) :
    toneMatchCount tone descriptors = specMatchCount tone descriptors := by
  unfold toneMatchCount specMatchCount
  refine congrArg _ (List.map_congr_left fun t _ => ?_)
  rw [sum_ite_one]
  refine List.countP_congr fun d _ => ?_
  rw [Bool.eq_iff_iff]
  simp [strContains_iff]

theorem score_nonneg_le_one (d t : List Str) :
    0 ≤ calculatePersonalityMatch d t ∧ calculatePersonalityMatch d t ≤ 1 := by
  unfold calculatePersonalityMatch
  split
  · norm_num
  · constructor
    · refine le_min (by norm_num) ?_
      positivity
    · exact min_le_left _ _

/-- `selGo` (the stable descending sort followed by `scored[0]`) picks
the first element of maximal score: it occurs in the list, every score
is at most its score, and every element strictly before it scores
strictly less. -/
theorem selGo_spec : ∀ (xs : List (Voice × ℚ)) (x : Voice × ℚ),
    ∃ pre post, x :: xs = pre ++ (selGo x xs) :: post
      ∧ (∀ z ∈ x :: xs, z.2 ≤ (selGo x xs).2)
      ∧ (∀ z ∈ pre, z.2 < (selGo x xs).2) := by
  intro xs
  induction xs with
  | nil =>
      intro x
      exact ⟨[], [], rfl, by simp [selGo], by simp⟩
  | cons a xs ih =>
      intro x
      have hgo : selGo x (a :: xs) = selGo (if x.2 < a.2 then a else x) xs := rfl
      by_cases hxa : x.2 < a.2
      · rcases ih a with ⟨pre, post, hdec, hmax, hpre⟩
        have hr : selGo x (a :: xs) = selGo a xs := by rw [hgo, if_pos hxa]
        have hle : a.2 ≤ (selGo a xs).2 := hmax a (List.mem_cons_self a xs)
        refine ⟨x :: pre, post, ?_, ?_, ?_⟩
        · rw [hr, List.cons_append, ← hdec]
        · intro z hz
          rcases List.mem_cons.mp hz with rfl | hz
          · rw [hr]; exact le_of_lt (lt_of_lt_of_le hxa hle)
          · rw [hr]; exact hmax z hz
        · intro z hz
          rcases List.mem_cons.mp hz with rfl | hz
          · rw [hr]; exact lt_of_lt_of_le hxa hle
          · rw [hr]; exact hpre z hz
      · rcases ih x with ⟨pre, post, hdec, hmax, hpre⟩
        have hr : selGo x (a :: xs) = selGo x xs := by rw [hgo, if_neg hxa]
        have hax : a.2 ≤ x.2 := le_of_not_lt hxa
        have hxle : x.2 ≤ (selGo x xs).2 := hmax x (List.mem_cons_self x xs)
        cases pre with
        | nil =>
            rw [List.nil_append] at hdec
            injection hdec with h1 h2
            refine ⟨[], a :: xs, ?_, ?_, by simp⟩
            · rw [List.nil_append, hr, ← h1]
            · intro z hz
              rw [hr, ← h1]
              rcases List.mem_cons.mp hz with rfl | hz
              · exact le_refl _
              · rcases List.mem_cons.mp hz with rfl | hz
                · exact hax
                · exact le_trans (hmax z (List.mem_cons_of_mem x hz)) (by rw [← h1])
        | cons q pre' =>
            rw [List.cons_append] at hdec
            injection hdec with h1 h2
            have hxlt : x.2 < (selGo x xs).2 := by
              have hq := hpre q (List.mem_cons_self q pre')
              rw [← h1] at hq
              exact hq
            refine ⟨x :: a :: pre', post, ?_, ?_, ?_⟩
            · rw [hr]
              simp only [List.cons_append]
              rw [← h2]
            · intro z hz
              rw [hr]
              rcases List.mem_cons.mp hz with rfl | hz
              · exact hxle
              · rcases List.mem_cons.mp hz with rfl | hz
                · exact hax.trans hxle
                · exact hmax z (List.mem_cons_of_mem x hz)
            · intro z hz
              rw [hr]
              rcases List.mem_cons.mp hz with rfl | hz
              · exact hxlt
              · rcases List.mem_cons.mp hz with rfl | hz
                · exact lt_of_le_of_lt hax hxlt
                · exact hpre z (List.mem_cons_of_mem q hz)

theorem map_decomp {α β : Type} (f : α → β) :
    ∀ (pre : List β) (l : List α) (r : β) (post : List β),
      l.map f = pre ++ r :: post →
        ∃ preA a postA, l = preA ++ a :: postA
          ∧ preA.map f = pre ∧ f a = r ∧ postA.map f = post := by
  intro pre
  induction pre with
  | nil =>
      intro l r post h
      cases l with
      | nil => simp at h
      | cons a l' =>
          rw [List.map_cons, List.nil_append] at h
          injection h with h1 h2
          exact ⟨[], a, l', rfl, rfl, h1, h2⟩
  | cons p pre' ih =>
      intro l r post h
      cases l with
      | nil => simp at h
      | cons a l' =>
          rw [List.map_cons, List.cons_append] at h
          injection h with h1 h2
          rcases ih l' r post h2 with ⟨preA, b, postA, hl, hm1, hm2, hm3⟩
          exact ⟨a :: preA, b, postA, by rw [hl, List.cons_append],
            by rw [List.map_cons, hm1, h1], hm2, hm3⟩

/-- C3: the Voice Matcher's score is `0.5` when either tag list is
empty, and otherwise `matchCount / max |tone| |descriptors|` capped at
1, where `matchCount` counts (lower-cased) pairs related by substring
containment either way; the score always lies in `[0, 1]`; and on a
non-empty post-filter candidate set the matcher deterministically
returns the first candidate (in original pool order) attaining the
maximal score. -/
theorem voice_matcher_scoring_and_selection :
    (∀ d t : List Str, (t = [] ∨ d = []) → calculatePersonalityMatch d t = 1/2)
    ∧ (∀ d t : List Str, t ≠ [] → d ≠ [] →
        calculatePersonalityMatch d t
          = min 1 ((specMatchCount (t.map toLowerStr) (d.map toLowerStr) : ℚ)
              / (max t.length d.length : Nat)))
    ∧ (∀ d t : List Str,
        0 ≤ calculatePersonalityMatch d t ∧ calculatePersonalityMatch d t ≤ 1)
    ∧ (∀ (cb : CharacterBible) (pool : List Voice),
        postFilterCandidates cb pool ≠ [] →
          ∃ v pre post,
            postFilterCandidates cb pool = pre ++ v :: post
            ∧ matchCharacterToVoice cb pool = .ok
                { voice_id := v.id, voice_name := v.name, provider := v.provider,
                  match_score :=
                    calculatePersonalityMatch v.descriptors cb.voice_profile.tone,
                  voice_settings := optimizeSettings cb.voice_profile }
            ∧ (∀ w ∈ postFilterCandidates cb pool,
                calculatePersonalityMatch w.descriptors cb.voice_profile.tone
                  ≤ calculatePersonalityMatch v.descriptors cb.voice_profile.tone)
            ∧ (∀ w ∈ pre,
                calculatePersonalityMatch w.descriptors cb.voice_profile.tone
                  < calculatePersonalityMatch v.descriptors cb.voice_profile.tone)) := by
  refine ⟨?_, ?_, score_nonneg_le_one, ?_⟩
  · intro d t h
    rcases h with h | h <;> simp [calculatePersonalityMatch, h]
  · intro d t ht hd
    unfold calculatePersonalityMatch
    rw [if_neg (by simp [List.length_eq_zero, ht, hd])]
    simp only [toneMatchCount_eq_spec, List.length_map]
  · intro cb pool hne
    obtain ⟨v0, cs, hcc⟩ : ∃ v0 cs, postFilterCandidates cb pool = v0 :: cs := by
      cases hc : postFilterCandidates cb pool with
      | nil => exact absurd hc hne
      | cons v0 cs => exact ⟨v0, cs, rfl⟩
    have hmv : matchCharacterToVoice cb pool =
        match selectFirstMax ((postFilterCandidates cb pool).map fun v =>
          (v, calculatePersonalityMatch v.descriptors cb.voice_profile.tone)) with
        | none => .error (.noSuitableVoice cb.character_name)
        | some best => .ok
            { voice_id := best.1.id, voice_name := best.1.name,
              provider := best.1.provider, match_score := best.2,
              voice_settings := optimizeSettings cb.voice_profile } := rfl
    set f : Voice → Voice × ℚ := fun v =>
      (v, calculatePersonalityMatch v.descriptors cb.voice_profile.tone) with hf
    rcases selGo_spec (cs.map f) (f v0) with ⟨pre, post, hdec, hmax, hpre⟩
    have hdec' : (postFilterCandidates cb pool).map f
        = pre ++ (selGo (f v0) (cs.map f)) :: post := by
      rw [hcc, List.map_cons]; exact hdec
    rcases map_decomp f pre (postFilterCandidates cb pool)
        (selGo (f v0) (cs.map f)) post hdec' with ⟨preA, a, postA, hl, hm1, hm2, hm3⟩
    refine ⟨a, preA, postA, hl, ?_, ?_, ?_⟩
    · rw [hmv, hcc, List.map_cons, selectFirstMax]
      have : selGo (f v0) (cs.map f) = f a := hm2.symm
      rw [this]
    · intro w hw
      have hwf : f w ∈ f v0 :: cs.map f := by
        rw [← List.map_cons, ← hcc]
        exact List.mem_map_of_mem f hw
      have hle := hmax (f w) hwf
      rw [← hm2] at hle
      simpa [hf] using hle
    · intro w hw
      have hwf : f w ∈ pre := by
        rw [← hm1]
        exact List.mem_map_of_mem f hw
      have hlt := hpre (f w) hwf
      rw [← hm2] at hlt
      simpa [hf] using hlt

/-- A pool with one `female`, bracket-20-35 voice: the post-filter
candidate set for `femaleThirty` is non-empty. -/
def femalePool : List Voice :=
  [{ id := "v3".toList, name := "Sue".toList, provider := .elevenlabs,
     gender := .female, age_range := .a20_35, accent := "american".toList,
     descriptors := ["warm".toList] }]

/-- Witness for C3 at a concrete input: matching `femaleThirty` against
a non-empty post-filter pool selects a first-maximal candidate. -/
theorem voice_matcher_scoring_and_selection_witness :
    (calculatePersonalityMatch [] [] = 1/2)
    ∧ ∃ v pre post,
        postFilterCandidates femaleThirty femalePool = pre ++ v :: post
        ∧ matchCharacterToVoice femaleThirty femalePool = .ok
            { voice_id := v.id, voice_name := v.name, provider := v.provider,
              match_score :=
                calculatePersonalityMatch v.descriptors femaleThirty.voice_profile.tone,
              voice_settings := optimizeSettings femaleThirty.voice_profile }
        ∧ (∀ w ∈ postFilterCandidates femaleThirty femalePool,
            calculatePersonalityMatch w.descriptors femaleThirty.voice_profile.tone
              ≤ calculatePersonalityMatch v.descriptors femaleThirty.voice_profile.tone)
        ∧ (∀ w ∈ pre,
            calculatePersonalityMatch w.descriptors femaleThirty.voice_profile.tone
              < calculatePersonalityMatch v.descriptors femaleThirty.voice_profile.tone) :=
  ⟨voice_matcher_scoring_and_selection.1 [] [] (Or.inl rfl),
    voice_matcher_scoring_and_selection.2.2.2 femaleThirty femalePool (by decide)⟩

/-! ## C5 : batching -/

theorem chunks_flatten {α : Type} (b : Nat) (l : List α) (hb : 0 < b) :
    (chunks b l).flatten = l := by
  induction b, l using chunks.induct with
  | case1 b => simp [chunks]
  | case2 x xs => omega
  | case3 b x xs ih =>
      rw [chunks, List.flatten_cons, ih (by omega)]
      exact List.take_append_drop _ _

theorem chunks_length {α : Type} (b : Nat) (l : List α) (hb : 0 < b) :
    (chunks b l).length = (l.length + b - 1) / b := by
  induction b, l using chunks.induct with
  | case1 b =>
      rw [chunks]
      simp only [List.length_nil, Nat.zero_add, List.length]
      rw [Nat.div_eq_of_lt (by omega)]
  | case2 x xs => omega
  | case3 b x xs ih =>
      rw [chunks, List.length_cons, ih (by omega), List.length_drop, List.length_cons]
      have h1 : xs.length + 1 + (b + 1) - 1 = xs.length + (b + 1) := by omega
      rw [h1, Nat.add_div_right _ (by omega)]
      by_cases hk : b + 1 ≤ xs.length + 1
      · have h2 : xs.length + 1 - (b + 1) + (b + 1) - 1 = xs.length := by omega
        rw [h2]
      · have h2 : xs.length + 1 - (b + 1) + (b + 1) - 1 = b := by omega
        rw [h2, Nat.div_eq_of_lt (by omega), Nat.div_eq_of_lt (by omega)]

theorem chunks_eq_nil_iff {α : Type} (b : Nat) (l : List α) (hb : 0 < b) :
    chunks b l = [] ↔ l = [] := by
  cases l with
  | nil => simp [chunks]
  | cons x xs =>
      obtain ⟨b', rfl⟩ : ∃ b', b = b' + 1 := ⟨b - 1, by omega⟩
      rw [chunks]
      simp

theorem chunks_mem_sizes {α : Type} (b : Nat) (l : List α) (hb : 0 < b) :
    ∀ c ∈ chunks b l, c ≠ [] ∧ c.length ≤ b := by
  induction b, l using chunks.induct with
  | case1 b => simp [chunks]
  | case2 x xs => omega
  | case3 b x xs ih =>
      intro c hc
      rw [chunks] at hc
      rcases List.mem_cons.mp hc with rfl | hc
      · refine ⟨by simp, ?_⟩
        rw [List.length_take]
        omega
      · exact ih (by omega) c hc

theorem chunks_dropLast_sizes {α : Type} (b : Nat) (l : List α) (hb : 0 < b) :
    ∀ c ∈ (chunks b l).dropLast, c.length = b := by
  induction b, l using chunks.induct with
  | case1 b => simp [chunks]
  | case2 x xs => omega
  | case3 b x xs ih =>
      intro c hc
      rw [chunks] at hc
      by_cases hrest : chunks (b + 1) ((x :: xs).drop (b + 1)) = []
      · rw [hrest] at hc
        simp at hc
      · rw [List.dropLast_cons_of_ne_nil hrest] at hc
        rcases List.mem_cons.mp hc with rfl | hc
        · have hdrop : (x :: xs).drop (b + 1) ≠ [] :=
            fun h => hrest (by rw [h, chunks])
          have hlen : b + 1 ≤ (x :: xs).length := by
            by_contra hlt
            exact hdrop (List.drop_eq_nil_of_le (by omega))
          rw [List.length_take]
          omega
        · exact ih (by omega) c hc

theorem pairwise_const_le (bIdx : Nat) {α : Type} (l : List α) :
    ((l.map fun _ => bIdx).Pairwise (· ≤ ·)) := by
  induction l with
  | nil => simp
  | cons a t ih =>
      rw [List.map_cons, List.pairwise_cons]
      exact ⟨fun y hy => by rcases List.mem_map.mp hy with ⟨z, _, rfl⟩; omega, ih⟩

theorem runBatches_calls_ge (gen : AudioSegment → Except GenError GeneratedAudio)
    (total : Nat) : ∀ (batches : List (List AudioSegment)) (bIdx done : Nat),
    ∀ pr ∈ (runBatches gen total bIdx done batches).calls, bIdx ≤ pr.1 := by
  intro batches
  induction batches with
  | nil => intro bIdx done pr hpr; simp [runBatches] at hpr
  | cons batch rest ih =>
      intro bIdx done pr hpr
      rw [runBatches] at hpr
      cases hm : exceptMapM gen batch with
      | error e =>
          rw [hm] at hpr
          simp only [] at hpr
          rcases List.mem_map.mp hpr with ⟨s, _, rfl⟩
          exact le_refl _
      | ok fragments =>
          rw [hm] at hpr
          simp only [] at hpr
          rcases List.mem_append.mp hpr with h | h
          · rcases List.mem_map.mp h with ⟨s, _, rfl⟩
            exact le_refl _
          · exact le_of_lt (Nat.lt_of_lt_of_le (Nat.lt_succ_self bIdx)
              (ih (bIdx + 1) (done + batch.length) pr h))

theorem runBatches_calls_sorted (gen : AudioSegment → Except GenError GeneratedAudio)
    (total : Nat) : ∀ (batches : List (List AudioSegment)) (bIdx done : Nat),
    ((runBatches gen total bIdx done batches).calls.map Prod.fst).Pairwise (· ≤ ·) := by
  intro batches
  induction batches with
  | nil => simp [runBatches]
  | cons batch rest ih =>
      intro bIdx done
      rw [runBatches]
      cases hm : exceptMapM gen batch with
      | error e =>
          simp only [List.map_map]
          exact pairwise_const_le bIdx batch
      | ok fragments =>
          simp only [List.map_append, List.map_map]
          rw [List.pairwise_append]
          refine ⟨pairwise_const_le bIdx batch, ih (bIdx + 1) (done + batch.length), ?_⟩
          intro x hx y hy
          rcases List.mem_map.mp hx with ⟨s, _, rfl⟩
          rcases List.mem_map.mp hy with ⟨pr, hpr, rfl⟩
          have := runBatches_calls_ge gen total rest (bIdx + 1)
            (done + batch.length) pr hpr
          simp only [Function.comp_apply]
          omega

theorem mapM_ok_of_all (gen : AudioSegment → Except GenError GeneratedAudio)
    (g : AudioSegment → GeneratedAudio) : ∀ (batch : List AudioSegment),
    (∀ s ∈ batch, gen s = .ok (g s)) → exceptMapM gen batch = .ok (batch.map g) := by
  intro batch
  induction batch with
  | nil => intro _; rfl
  | cons s rest ih =>
      intro h
      have hs : gen s = .ok (g s) := h s (List.mem_cons_self s rest)
      have hr : exceptMapM gen rest = .ok (rest.map g) :=
        ih fun q hq => h q (List.mem_cons_of_mem s hq)
      rw [exceptMapM, hs, hr]
      rfl

theorem runBatches_result_ok (gen : AudioSegment → Except GenError GeneratedAudio)
    (g : AudioSegment → GeneratedAudio) (total : Nat) :
    ∀ (batches : List (List AudioSegment)) (bIdx done : Nat),
    (∀ s ∈ batches.flatten, gen s = .ok (g s)) →
      (runBatches gen total bIdx done batches).result = .ok (batches.flatten.map g) := by
  intro batches
  induction batches with
  | nil => intro bIdx done _; rfl
  | cons batch rest ih =>
      intro bIdx done h
      rw [runBatches]
      have hb : exceptMapM gen batch = .ok (batch.map g) :=
        mapM_ok_of_all gen g batch fun s hs =>
          h s (by rw [List.flatten_cons]; exact List.mem_append_left _ hs)
      rw [hb]
      have hr := ih (bIdx + 1) (done + batch.length) fun s hs =>
        h s (by rw [List.flatten_cons]; exact List.mem_append_right _ hs)
      simp only [hr, Except.map, List.flatten_cons, List.map_append]

/-- Five minimal narration units (the spec's batching example). -/
def mkPlainSegment (n : Nat) : AudioSegment :=
  { id := Nat.toDigits 10 n, sequence_number := n, segment_type := .narrative,
    character_name := none, text_content := "x".toList,
    emotion_detected := none, emotion_intensity := none }

def exampleFiveSegments : List AudioSegment :=
  [mkPlainSegment 1, mkPlainSegment 2, mkPlainSegment 3,
   mkPlainSegment 4, mkPlainSegment 5]

/-- An orchestrator whose two backends both fail (used only to
instantiate theorems at concrete inputs). -/
def envStub : OrchestratorEnv :=
  { elevenlabsBackend := fun _ => none, playhtBackend := fun _ => none,
    elevenlabsCostPer1K := 0, playhtCostPer1K := 0 }

/-- C5: with batch size `b > 0` and `n` units the orchestrator
dispatches exactly `⌈n / b⌉` batches — every batch non-empty and of
size at most `b`, all but the last of size exactly `b`, and their
concatenation is the input in order; the dispatch trace is ordered by
batch (batch `n+1`'s calls never precede batch `n`'s); when every unit
synthesizes, the run returns exactly one fragment per unit in input
order; and with batch size 2 and 5 units exactly 3 batches are
dispatched. -/
theorem orchestrator_batching (env : OrchestratorEnv)
    (assigns : List VoiceAssignment) (segs : List AudioSegment) (b : Nat)
    (hb : 0 < b) :
    (chunks b segs).length = (segs.length + b - 1) / b
    ∧ (∀ c ∈ chunks b segs, c ≠ [] ∧ c.length ≤ b)
    ∧ (∀ c ∈ (chunks b segs).dropLast, c.length = b)
    ∧ (chunks b segs).flatten = segs
    ∧ ((generateSegments env segs assigns b).calls.map Prod.fst).Pairwise (· ≤ ·)
    ∧ (∀ g : AudioSegment → GeneratedAudio,
        (∀ s ∈ segs, (generateSingleSegment env s assigns).1 = .ok (g s)) →
          (generateSegments env segs assigns b).result = .ok (segs.map g))
    ∧ (chunks 2 exampleFiveSegments).length = 3 := by
  refine ⟨chunks_length b segs hb, chunks_mem_sizes b segs hb,
    chunks_dropLast_sizes b segs hb, chunks_flatten b segs hb,
    runBatches_calls_sorted _ segs.length (chunks b segs) 0 0, ?_, ?_⟩
  case refine_2 =>
    rw [chunks_length 2 exampleFiveSegments (by norm_num)]
    simp [exampleFiveSegments]
  intro g hok
  have h := runBatches_result_ok (fun s => (generateSingleSegment env s assigns).1)
    g segs.length (chunks b segs) 0 0
    (by rw [chunks_flatten b segs hb]; exact hok)
  rw [generateSegments, h, chunks_flatten b segs hb]

/-- Witness for C5 at a concrete input: batch size 2 over five units. -/
theorem orchestrator_batching_witness :
    (chunks 2 exampleFiveSegments).length = (exampleFiveSegments.length + 2 - 1) / 2
    ∧ (chunks 2 exampleFiveSegments).flatten = exampleFiveSegments :=
  ⟨(orchestrator_batching envStub [] exampleFiveSegments 2 (by decide)).1,
   (orchestrator_batching envStub [] exampleFiveSegments 2 (by decide)).2.2.2.1⟩

/-! ## C2 : primary/fallback provider chain -/

theorem all_ok_of_mapM_ok (gen : AudioSegment → Except GenError GeneratedAudio) :
    ∀ (batch : List AudioSegment) (frs : List GeneratedAudio),
      exceptMapM gen batch = .ok frs → ∀ s ∈ batch, ∃ f, gen s = .ok f := by
  intro batch
  induction batch with
  | nil => intro frs _ s hs; simp at hs
  | cons q rest ih =>
      intro frs hm s hs
      rw [exceptMapM] at hm
      cases hq : gen q with
      | error e => rw [hq] at hm; exact Except.noConfusion hm
      | ok f =>
          rw [hq] at hm
          cases hr : exceptMapM gen rest with
          | error e => rw [hr] at hm; exact Except.noConfusion hm
          | ok fs =>
              rcases List.mem_cons.mp hs with rfl | hs
              · exact ⟨f, hq⟩
              · exact ih fs hr s hs

theorem runBatches_error_of_mem (gen : AudioSegment → Except GenError GeneratedAudio)
    (total : Nat) : ∀ (batches : List (List AudioSegment)) (bIdx done : Nat)
      (s : AudioSegment), s ∈ batches.flatten → (∀ f, gen s ≠ .ok f) →
      ∃ e, (runBatches gen total bIdx done batches).result = .error e := by
  intro batches
  induction batches with
  | nil => intro bIdx done s hs; simp at hs
  | cons batch rest ih =>
      intro bIdx done s hs hbad
      rw [runBatches]
      cases hm : exceptMapM gen batch with
      | error e => exact ⟨e, rfl⟩
      | ok frs =>
          rw [List.flatten_cons] at hs
          rcases List.mem_append.mp hs with hs | hs
          · rcases all_ok_of_mapM_ok gen batch frs hm s hs with ⟨f, hf⟩
            exact absurd hf (hbad f)
          · rcases ih (bIdx + 1) (done + batch.length) s hs hbad with ⟨e, he⟩
            refine ⟨e, ?_⟩
            simp only [he, Except.map]

/-- C2: with a resolved voice assignment, the orchestrator always
attempts the primary provider (ElevenLabs) first, whatever provider the
assignment pins; if the primary fails and the fallback (PlayHT)
succeeds, the unit's fragment is the fallback's, attributed to
`playht`; if both fail, the unit errors, and any unit error makes the
whole run return an error — no fragment list is produced. -/
theorem provider_fallback_chain (env : OrchestratorEnv) (seg : AudioSegment)
    (assigns : List VoiceAssignment) (a : VoiceAssignment)
    (ha : findVoiceAssignment seg.character_name assigns = some a) :
    (generateSingleSegment env seg assigns).2.head? = some .elevenlabs
    ∧ (env.elevenlabsBackend (mkGenerationParams seg a) = none →
        ∀ bytes, env.playhtBackend (mkGenerationParams seg a) = some bytes →
          (generateSingleSegment env seg assigns).1 = .ok
            { audio_data := bytes, format := .mp3,
              duration := estimateDuration (mkGenerationParams seg a).text,
              provider := .playht,
              cost := calculateCost (mkGenerationParams seg a).text.length
                env.playhtCostPer1K }
          ∧ (generateSingleSegment env seg assigns).2 = [.elevenlabs, .playht])
    ∧ (env.elevenlabsBackend (mkGenerationParams seg a) = none →
        env.playhtBackend (mkGenerationParams seg a) = none →
          (generateSingleSegment env seg assigns).1 = .error .segmentExhausted)
    ∧ (∀ (segs : List AudioSegment) (b : Nat), 0 < b → seg ∈ segs →
        (∀ f, (generateSingleSegment env seg assigns).1 ≠ .ok f) →
          ∃ e, (generateSegments env segs assigns b).result = .error e) := by
  refine ⟨?_, ?_, ?_, ?_⟩
  · simp only [generateSingleSegment, ha]
    cases hel : env.elevenlabsBackend (mkGenerationParams seg a) with
    | none =>
        simp only [providerGenerateSpeech, hel]
        cases hpl : env.playhtBackend (mkGenerationParams seg a) with
        | none => rfl
        | some bytes => rfl
    | some bytes => simp [providerGenerateSpeech, hel]
  · intro hel bytes hpl
    simp only [generateSingleSegment, ha, providerGenerateSpeech, hel, hpl]
    exact ⟨trivial, trivial⟩
  · intro hel hpl
    simp only [generateSingleSegment, ha, providerGenerateSpeech, hel, hpl]
  · intro segs b hb hmem hbad
    refine runBatches_error_of_mem _ segs.length (chunks b segs) 0 0 seg ?_ hbad
    rw [chunks_flatten b segs hb]
    exact hmem

/-- The narrator voice assignment used in concrete instantiations. -/
def narratorAssignment : VoiceAssignment :=
  { character_name := "narrator".toList, voice_id := "v1".toList,
    voice_name := "N".toList, provider := .elevenlabs, match_score := 1,
    voice_settings := { stability := 1, similarity_boost := 1,
                        style := none, use_speaker_boost := none } }

/-- A narrative unit with no speaker. -/
def narratorSeg : AudioSegment :=
  { id := "s1".toList, sequence_number := 1, segment_type := .narrative,
    character_name := none, text_content := "Hello".toList,
    emotion_detected := none, emotion_intensity := none }

/-- An orchestrator whose primary backend fails and whose fallback
returns the byte `[7]`. -/
def envFallback : OrchestratorEnv :=
  { elevenlabsBackend := fun _ => none, playhtBackend := fun _ => some [7],
    elevenlabsCostPer1K := 0, playhtCostPer1K := 0 }

/-- Witness for C2 at a concrete input: primary fails, fallback
succeeds, and the fragment is attributed to `playht`. -/
theorem provider_fallback_chain_witness :
    (generateSingleSegment envFallback narratorSeg [narratorAssignment]).1 = .ok
      { audio_data := [7], format := .mp3,
        duration := estimateDuration
          (mkGenerationParams narratorSeg narratorAssignment).text,
        provider := .playht,
        cost := calculateCost
          (mkGenerationParams narratorSeg narratorAssignment).text.length
          envFallback.playhtCostPer1K }
    ∧ (generateSingleSegment envFallback narratorSeg [narratorAssignment]).2
        = [.elevenlabs, .playht] :=
  (provider_fallback_chain envFallback narratorSeg [narratorAssignment]
    narratorAssignment (by decide)).2.1 rfl [7] rfl

/-! ## C8 : voice assignment resolution -/

/-- C8: a unit with no speaker resolves to the first assignment bound
to the sentinel name `narrator` (and resolves exactly when one exists);
a named speaker is resolved case-insensitively against the assignment
names; and a unit that resolves to no assignment makes
`generateSingleSegment` fail with the missing-assignment error while
dispatching no provider call at all. -/
theorem voice_assignment_resolution :
    (∀ (assigns : List VoiceAssignment) (a : VoiceAssignment),
        findVoiceAssignment none assigns = some a →
          a ∈ assigns ∧ a.character_name = "narrator".toList)
    ∧ (∀ assigns : List VoiceAssignment,
        (findVoiceAssignment none assigns).isSome
          ↔ ∃ a ∈ assigns, a.character_name = "narrator".toList)
    ∧ (∀ (assigns : List VoiceAssignment) (nm : Str) (a : VoiceAssignment),
        findVoiceAssignment (some nm) assigns = some a →
          a ∈ assigns ∧ toLowerStr a.character_name = toLowerStr nm)
    ∧ (∀ (assigns : List VoiceAssignment) (nm : Str),
        findVoiceAssignment (some nm) assigns = none →
          ∀ a ∈ assigns, toLowerStr a.character_name ≠ toLowerStr nm)
    ∧ (∀ (env : OrchestratorEnv) (seg : AudioSegment)
        (assigns : List VoiceAssignment),
        findVoiceAssignment seg.character_name assigns = none →
          generateSingleSegment env seg assigns
            = (.error (.noVoiceAssignment seg.id), [])) := by
  refine ⟨?_, ?_, ?_, ?_, ?_⟩
  · intro assigns a h
    refine ⟨List.mem_of_find?_eq_some h, ?_⟩
    have := List.find?_some h
    simpa using this
  · intro assigns
    rw [show findVoiceAssignment none assigns
      = assigns.find? (fun a => a.character_name == "narrator".toList) from rfl]
    rw [List.find?_isSome]
    simp
  · intro assigns nm a h
    refine ⟨List.mem_of_find?_eq_some h, ?_⟩
    have := List.find?_some h
    simpa using this
  · intro assigns nm h a ha
    have := List.find?_eq_none.mp h a ha
    simpa using this
  · intro env seg assigns h
    simp only [generateSingleSegment, h]

/-- Witness for C8 at a concrete input: with no assignments at all, the
no-speaker unit fails before any provider dispatch. -/
theorem voice_assignment_resolution_witness :
    generateSingleSegment envStub narratorSeg []
      = (.error (.noVoiceAssignment narratorSeg.id), []) :=
  voice_assignment_resolution.2.2.2.2 envStub narratorSeg [] (by decide)

/-! ## C9 : progress percent monotonicity -/

/-- A one-paragraph chapter used for concrete pipeline runs. -/
def chaptersHello : List Chapter :=
  [{ id := "c1".toList, chapter_number := 1, title := "One".toList,
     content := "Hello".toList, word_count := 1 }]

/-- The single unit the Segmenter produces from `chaptersHello`. -/
def helloSeg : AudioSegment :=
  { id := mkSegmentId "c1".toList 0, sequence_number := 1,
    segment_type := .narrative, character_name := none,
    text_content := "Hello".toList, emotion_detected := none,
    emotion_intensity := none }

theorem segmentChapters_hello : segmentChapters chaptersHello = [helloSeg] := by
  decide

theorem chunks_one_singleton : chunks 1 [helloSeg] = [[helloSeg]] := by
  show chunks (0 + 1) [helloSeg] = [[helloSeg]]
  rw [chunks]
  simp [chunks]

/-- C9, counterexample: on a failing run the terminal `error` event
carries percent 0, strictly below the earlier 5 and 10, so the emitted
percent sequence `[5, 10, 0]` is not monotonically non-decreasing. -/
theorem progress_error_event_resets_percent :
    (generateAudiobookEvents envStub chaptersHello [] 1).map (·.percent_complete)
      = [5, 10, 0]
    ∧ ¬ List.Chain' (· ≤ ·)
        ((generateAudiobookEvents envStub chaptersHello [] 1).map
          (·.percent_complete)) := by
  have hgen : (generateSingleSegment envStub helloSeg []).1
      = .error (.noVoiceAssignment helloSeg.id) := by decide
  have hm : exceptMapM (fun s => (generateSingleSegment envStub s []).1) [helloSeg]
      = .error (.noVoiceAssignment helloSeg.id) := by
    rw [exceptMapM, hgen]
  have hrun : generateSegments envStub (segmentChapters chaptersHello) [] 1
      = ⟨.error (.noVoiceAssignment helloSeg.id),
          [(0, helloSeg.id)], []⟩ := by
    rw [generateSegments, segmentChapters_hello, chunks_one_singleton, runBatches, hm]
    rfl
  have hev : generateAudiobookEvents envStub chaptersHello [] 1
      = [⟨.analyzing_chapters, 5⟩, ⟨.generating_audio, 10⟩, ⟨.error, 0⟩] := by
    rw [generateAudiobookEvents]
    rw [show generateSegments envStub (segmentChapters chaptersHello) [] 1
      = ⟨.error (.noVoiceAssignment helloSeg.id), [(0, helloSeg.id)], []⟩ from hrun]
    rfl
  refine ⟨by rw [hev]; rfl, ?_⟩
  rw [hev]
  intro h
  rw [List.map_cons, List.map_cons, List.map_cons, List.chain'_cons,
    List.chain'_cons] at h
  simp at h

def cumCounts : Nat → List (List AudioSegment) → List Nat
  | _, [] => []
  | done, batch :: rest => (done + batch.length) :: cumCounts (done + batch.length) rest

theorem runBatches_progress_ok (gen : AudioSegment → Except GenError GeneratedAudio)
    (total : Nat) : ∀ (batches : List (List AudioSegment)) (bIdx done : Nat)
    (frs : List GeneratedAudio),
    (runBatches gen total bIdx done batches).result = .ok frs →
      (runBatches gen total bIdx done batches).progress
        = (cumCounts done batches).map fun c => batchPercent c total := by
  intro batches
  induction batches with
  | nil => intro bIdx done frs _; rfl
  | cons batch rest ih =>
      intro bIdx done frs hok
      rw [runBatches] at hok ⊢
      cases hm : exceptMapM gen batch with
      | error e => rw [hm] at hok; exact Except.noConfusion hok
      | ok fs =>
          rw [hm] at hok
          have hok2 : Except.map (fun x => fs ++ x)
              (runBatches gen total (bIdx + 1) (done + batch.length) rest).result
              = Except.ok frs := hok
          cases hr : (runBatches gen total (bIdx + 1) (done + batch.length) rest).result with
          | error e =>
              rw [hr] at hok2
              exact Except.noConfusion hok2
          | ok frs2 =>
              show batchPercent (done + batch.length) total ::
                  (runBatches gen total (bIdx + 1) (done + batch.length) rest).progress
                = List.map (fun c => batchPercent c total) (cumCounts done (batch :: rest))
              rw [cumCounts, List.map_cons]
              exact congrArg _ (ih (bIdx + 1) (done + batch.length) frs2 hr)

theorem cumCounts_head_ge : ∀ (batches : List (List AudioSegment)) (done c : Nat),
    (cumCounts done batches).head? = some c → done ≤ c := by
  intro batches done c h
  cases batches with
  | nil => simp [cumCounts] at h
  | cons batch rest =>
      rw [cumCounts] at h
      injection h with h
      omega

theorem cumCounts_chain : ∀ (batches : List (List AudioSegment)) (done : Nat),
    List.Chain' (· ≤ ·) (cumCounts done batches) := by
  intro batches
  induction batches with
  | nil => intro done; simp [cumCounts]
  | cons batch rest ih =>
      intro done
      rw [cumCounts, List.chain'_cons']
      refine ⟨?_, ih (done + batch.length)⟩
      intro y hy
      exact cumCounts_head_ge rest (done + batch.length) y hy

theorem cumCounts_le : ∀ (batches : List (List AudioSegment)) (done c : Nat),
    c ∈ cumCounts done batches → c ≤ done + (batches.map List.length).sum := by
  intro batches
  induction batches with
  | nil => intro done c hc; simp [cumCounts] at hc
  | cons batch rest ih =>
      intro done c hc
      rw [cumCounts] at hc
      rw [List.map_cons, List.sum_cons]
      rcases List.mem_cons.mp hc with rfl | hc
      · omega
      · have := ih (done + batch.length) c hc
        omega

theorem jsRound_mono {q r : ℚ} (h : q ≤ r) : jsRound q ≤ jsRound r :=
  Int.floor_mono (by linarith)

theorem batchPercent_mono (t : Nat) {c c' : Nat} (h : c ≤ c') :
    batchPercent c t ≤ batchPercent c' t := by
  unfold batchPercent
  refine jsRound_mono ?_
  have hdiv : (c : ℚ) / t ≤ (c' : ℚ) / t := by
    rcases Nat.eq_zero_or_pos t with ht | ht
    · simp [ht]
    · exact (div_le_div_iff_of_pos_right (by positivity)).mpr (by exact_mod_cast h)
  linarith

theorem batchPercent_ge_10 (c t : Nat) : 10 ≤ batchPercent c t := by
  have h0 : (0 : ℚ) ≤ (c : ℚ) / t := by positivity
  have : jsRound 10 ≤ batchPercent c t := by
    unfold batchPercent
    refine jsRound_mono ?_
    linarith
  have h10 : jsRound 10 = 10 := by
    unfold jsRound
    norm_num
  omega

theorem batchPercent_le_90 {c t : Nat} (h : c ≤ t) : batchPercent c t ≤ 90 := by
  have hdiv : (c : ℚ) / t ≤ 1 := by
    rcases Nat.eq_zero_or_pos t with ht | ht
    · subst ht
      simp
    · rw [div_le_one (by exact_mod_cast ht)]
      exact_mod_cast h
  have : batchPercent c t ≤ jsRound 90 := by
    unfold batchPercent
    refine jsRound_mono ?_
    linarith
  have h90 : jsRound 90 = 90 := by
    unfold jsRound
    norm_num
  omega

/-- C9, amended: on every run that completes successfully the emitted
percent values are monotonically non-decreasing (5, 10, the rounded
batch percentages rising to at most 90, 95, 100); only the terminal
`error` event of a failed run resets the percentage to 0. -/
theorem progress_monotone_on_success (env : OrchestratorEnv)
    (chapters : List Chapter) (assigns : List VoiceAssignment) (b : Nat)
    (hb : 0 < b) (frs : List GeneratedAudio)
    (hok : (generateSegments env (segmentChapters chapters) assigns b).result
      = .ok frs) :
    List.Chain' (· ≤ ·)
      ((generateAudiobookEvents env chapters assigns b).map (·.percent_complete)) := by
  set segs := segmentChapters chapters with hsegs
  set total := segs.length with htotal
  have hprog : (generateSegments env segs assigns b).progress
      = (cumCounts 0 (chunks b segs)).map fun c => batchPercent c total :=
    runBatches_progress_ok _ total (chunks b segs) 0 0 frs hok
  have hsum : ((chunks b segs).map List.length).sum = total := by
    rw [← List.length_flatten, chunks_flatten b segs hb]
  have hmem10 : ∀ p ∈ (generateSegments env segs assigns b).progress, 10 ≤ p := by
    rw [hprog]
    intro p hp
    rcases List.mem_map.mp hp with ⟨c, _, rfl⟩
    exact batchPercent_ge_10 c total
  have hmem90 : ∀ p ∈ (generateSegments env segs assigns b).progress, p ≤ 90 := by
    rw [hprog]
    intro p hp
    rcases List.mem_map.mp hp with ⟨c, hc, rfl⟩
    refine batchPercent_le_90 ?_
    have := cumCounts_le (chunks b segs) 0 c hc
    omega
  have hchain : List.Chain' (· ≤ ·) (generateSegments env segs assigns b).progress := by
    rw [hprog]
    exact (List.chain'_map _).mpr
      ((cumCounts_chain (chunks b segs) 0).imp fun a c h => batchPercent_mono total h)
  -- assemble the full event sequence
  rw [generateAudiobookEvents]
  rw [show generateSegments env (segmentChapters chapters) assigns b
    = generateSegments env segs assigns b from rfl]
  rw [hok]
  simp only [List.map_cons, List.map_append, List.map_map, List.map_nil]
  rw [List.chain'_append]
  refine ⟨?_, ?_, ?_⟩
  · rw [List.chain'_cons', List.chain'_cons']
    refine ⟨?_, ?_, ?_⟩
    · intro y hy
      simp only [List.head?_cons, Option.mem_def, Option.some.injEq] at hy
      omega
    · intro y hy
      have hmem := List.mem_of_mem_head? hy
      rcases List.mem_map.mp hmem with ⟨p, hp, rfl⟩
      have := hmem10 p hp
      simpa using this
    · exact (List.chain'_map _).mpr (hchain.imp fun a c h => h)
  · exact List.chain'_cons.mpr ⟨by norm_num, List.chain'_singleton _⟩
  · intro x hx y hy
    simp only [List.head?_cons, Option.mem_def, Option.some.injEq] at hy
    subst hy
    have hxm := List.mem_of_mem_getLast? hx
    rcases List.mem_cons.mp hxm with rfl | hxm
    · norm_num
    · rcases List.mem_cons.mp hxm with rfl | hxm
      · norm_num
      · rcases List.mem_map.mp hxm with ⟨p, hp, rfl⟩
        have := hmem90 p hp
        have h95 : (90 : ℤ) ≤ 95 := by norm_num
        simp only [Function.comp_apply]
        omega

/-- An orchestrator whose primary backend succeeds, returning `[1]`. -/
def envOk : OrchestratorEnv :=
  { elevenlabsBackend := fun _ => some [1], playhtBackend := fun _ => none,
    elevenlabsCostPer1K := 0, playhtCostPer1K := 0 }

/-- The fragment `envOk` produces for `helloSeg`. -/
def fragEl : GeneratedAudio :=
  { audio_data := [1], format := .mp3,
    duration := estimateDuration "Hello".toList, provider := .elevenlabs,
    cost := calculateCost "Hello".toList.length 0 }

theorem envOk_run_ok :
    (generateSegments envOk (segmentChapters chaptersHello)
      [narratorAssignment] 1).result = .ok [fragEl] := by
  have hfind : findVoiceAssignment helloSeg.character_name [narratorAssignment]
      = some narratorAssignment := by decide
  have hgen : (generateSingleSegment envOk helloSeg [narratorAssignment]).1
      = .ok fragEl := by
    simp only [generateSingleSegment, hfind, providerGenerateSpeech]
    rfl
  have hm : exceptMapM
      (fun s => (generateSingleSegment envOk s [narratorAssignment]).1) [helloSeg]
      = .ok [fragEl] := by
    rw [exceptMapM, hgen]
    rfl
  rw [generateSegments, segmentChapters_hello, chunks_one_singleton, runBatches, hm]
  rfl

/-- Witness for the amended C9 at a concrete input: a successful
one-unit run emits the non-decreasing percent sequence. -/
theorem progress_monotone_on_success_witness :
    List.Chain' (· ≤ ·)
      ((generateAudiobookEvents envOk chaptersHello [narratorAssignment] 1).map
        (·.percent_complete)) :=
  progress_monotone_on_success envOk chaptersHello [narratorAssignment] 1
    (by decide) [fragEl] envOk_run_ok

/-! ## C10 : temp-file cleanup on failure paths -/

/-- An audio engine run that fails (the ffmpeg `error` event). -/
def failEngine : AudioEngine := fun _ => none

/-- An audio engine run that succeeds, echoing its input bytes. -/
def okEngine : AudioEngine := fun bs => some bs

/-- A minimal input fragment for the assembler. -/
def fragIn : GeneratedAudio :=
  { audio_data := [3], format := .mp3, duration := 2,
    provider := .elevenlabs, cost := 0 }

/-- C10, behaviour at the failing input: when the engine call of a
normalization or encoding step fails, the step propagates the error but
leaves the temp input file it wrote on disk (the `catch` block rethrows
without any `unlink`); only the success path deletes both temp files. -/
theorem temp_files_leak_on_engine_failure :
    (normalizeOneSegment failEngine (-16) "in1".toList "out1".toList fragIn []).1
        = .error .engineError
    ∧ (normalizeOneSegment failEngine (-16) "in1".toList "out1".toList fragIn []).2
        = [("in1".toList, [3])]
    ∧ (normalizeOneSegment okEngine (-16) "in1".toList "out1".toList fragIn []).2
        = []
    ∧ (generateM4B failEngine "in2".toList "out2".toList [9] []).1
        = .error .engineError
    ∧ (generateM4B failEngine "in2".toList "out2".toList [9] []).2
        = [("in2".toList, [9])]
    ∧ (generateM4B okEngine "in2".toList "out2".toList [9] []).2 = [] := by
  refine ⟨rfl, rfl, ?_, rfl, rfl, ?_⟩ <;> decide

end Audiobook
